import Mathlib

/-!
Verification development for the constant model of the `sway-ir` crate
(`sway-ir/src/constant.rs`): the `Constant` data type, its constructors,
the context-aware structural equality `Constant::eq`, and the value arena
glue, shallowly embedded in Lean.

The `Type` registry (`irtype.rs`), the `U256` scalar (`sway-types`) and the
`Value` arena (`value.rs`) are not part of the visible sources; they are
modelled from the spec where needed, as marked on each definition.
-/

namespace SwayIR

/-- Modelled from the spec: the structural type descriptions interned by the
Type Registry (`irtype.rs` is not in the visible sources).  Variants follow
spec §3: `Unit`, `Bool`, `Uint(width)`, `B256`, `String(length)`,
`Array(element_type, length)`, `Struct(ordered_field_types)`.  The registry's
canonicalization invariant (two handles are equal iff their structural
descriptions are equal) lets a structural value stand for the interned
handle, with handle comparison modelled as structural equality. -/
inductive Ty where
  | Unit : Ty
  | Bool : Ty
  | Uint : Nat → Ty
  | B256 : Ty
  | StringArray : Nat → Ty
  | Array : Ty → Nat → Ty
  | Struct : List Ty → Ty

mutual

/-- Structural (boolean) equality of type descriptions; by the registry's
canonicalization invariant this coincides with interned-handle equality. -/
def tyBeq : Ty → Ty → Bool
  | .Unit, .Unit => true
  | .Bool, .Bool => true
  | .Uint w1, .Uint w2 => w1 == w2
  | .B256, .B256 => true
  | .StringArray l1, .StringArray l2 => l1 == l2
  | .Array e1 n1, .Array e2 n2 => tyBeq e1 e2 && n1 == n2
  | .Struct f1, .Struct f2 => tyListBeq f1 f2
  | _, _ => false

/-- Structural equality of field-type lists, pointwise and
length-sensitive. -/
def tyListBeq : List Ty → List Ty → Bool
  | [], [] => true
  | t :: ts, u :: us => tyBeq t u && tyListBeq ts us
  | _, _ => false

end

mutual

/-- `ConstantValue` from `constant.rs`: the tagged-union payload of a
constant.  `Vec<u8>` is modelled as `List Nat` (bytes), `u64` as `Nat`, and
the external `U256`/`B256` scalars (from `sway-types`) as `Nat`. -/
inductive ConstantValue where
  | Undef : ConstantValue
  | Unit : ConstantValue
  | Bool : Bool → ConstantValue
  | Uint : Nat → ConstantValue
  | U256 : Nat → ConstantValue
  | B256 : Nat → ConstantValue
  | String : List Nat → ConstantValue
  | Array : List Constant → ConstantValue
  | Struct : List Constant → ConstantValue

/-- `Constant` from `constant.rs`: a `Type` paired with a `ConstantValue`. -/
inductive Constant where
  | mk : Ty → ConstantValue → Constant

end

/-- The `ty` field of a `Constant`. -/
def Constant.ty : Constant → Ty
  | .mk t _ => t

/-- The `value` field of a `Constant`. -/
def Constant.value : Constant → ConstantValue
  | .mk _ v => v

/-- Modelled from the spec: the `Context` owns the Value Arena (`value.rs`
is not in the visible sources).  Type interning needs no state here because
interned handles are modelled structurally, so the context carries only the
arena of allocated constant values (spec §2, §4.4). -/
structure Context where
  values : List Constant

/-- Modelled from the spec: a `Value` is an opaque handle into the
context's arena — an index into the arena table (spec §3, §9). -/
structure Value where
  idx : Nat
deriving DecidableEq

/-- Modelled from the spec: `Value::new_constant` allocates a new arena slot
wrapping the constant and returns its handle; it does not deduplicate
(spec §4.4).  The mutation of the context is made explicit. -/
def Value.new_constant (context : Context) (constant : Constant) : Value × Context :=
  (⟨context.values.length⟩, ⟨context.values ++ [constant]⟩)

/-- Modelled from the spec: retrieval of the `Constant` payload wrapped by a
`Value` handle, `none` when the handle does not refer to an allocated
constant (spec §4.4). -/
def Context.get_constant (context : Context) (v : Value) : Option Constant :=
  context.values[v.idx]?

/-- Modelled from the spec: `Type::eq` — types are interned, so the
context-aware handle comparison is structural equality (spec §3's
canonicalization invariant). -/
def Ty.eq (_context : Context) (a b : Ty) :=
  tyBeq a b

/-- Modelled from the spec: `Type::is_array` holds exactly for array
types. -/
def Ty.is_array (_context : Context) (t : Ty) :=
  match t with
  | .Array _ _ => true
  | _ => false

/-- Modelled from the spec: `Type::is_struct` holds exactly for struct
types. -/
def Ty.is_struct (_context : Context) (t : Ty) :=
  match t with
  | .Struct _ => true
  | _ => false

/-- Modelled from the spec: `Type::is_enum` — an enum is encoded as a
struct of exactly two fields (discriminant and payload); the predicate is a
shape heuristic over the type, true exactly for two-field structs
(spec §3, §4.1, §9). -/
def Ty.is_enum (_context : Context) (t : Ty) :=
  match t with
  | .Struct fields => fields.length == 2
  | _ => false

/-- Modelled from the spec: `U256::from_be_bytes` interprets the byte list
as a big-endian base-256 numeral (spec §4.2). -/
def U256.from_be_bytes (bytes : List Nat) : Nat :=
  bytes.foldl (fun acc b => acc * 256 + b) 0

/-- Big-endian byte extraction: the `k` low-order base-256 digits of `n`,
most significant first. -/
def beBytes : Nat → Nat → List Nat
  | 0, _ => []
  | k + 1, n => beBytes k (n / 256) ++ [n % 256]

/-- Modelled from the spec: conversion of a 256-bit scalar back to its 32
big-endian bytes (spec §4.2, §8: B256 byte-order fidelity). -/
def U256.to_be_bytes (n : Nat) : List Nat :=
  beBytes 32 n

/-- `Constant::new_unit`. -/
def Constant.new_unit (_context : Context) : Constant :=
  .mk .Unit .Unit

/-- `Constant::new_bool`. -/
def Constant.new_bool (_context : Context) (b : Bool) : Constant :=
  .mk .Bool (.Bool b)

/-- `Constant::new_uint`: for `nbits == 256` the `u64` literal is widened
into the `U256` variant, otherwise it is stored as `Uint`. -/
def Constant.new_uint (_context : Context) (nbits : Nat) (n : Nat) : Constant :=
  .mk (.Uint nbits)
    (match nbits with
      | 256 => .U256 n
      | _ => .Uint n)

/-- `Constant::new_uint256`. -/
def Constant.new_uint256 (_context : Context) (n : Nat) : Constant :=
  .mk (.Uint 256) (.U256 n)

/-- `Constant::new_b256`: the 32 input bytes are interpreted big-endian. -/
def Constant.new_b256 (_context : Context) (bytes : List Nat) : Constant :=
  .mk .B256 (.B256 (U256.from_be_bytes bytes))

/-- `Constant::new_string`. -/
def Constant.new_string (_context : Context) (string : List Nat) : Constant :=
  .mk (.StringArray string.length) (.String string)

/-- `Constant::new_array`: the carried type is `Array(elm_ty, elems.len())`,
computed from the inputs. -/
def Constant.new_array (_context : Context) (elm_ty : Ty) (elems : List Constant) : Constant :=
  .mk (.Array elm_ty elems.length) (.Array elems)

/-- `Constant::new_struct`: the carried type is `Struct(field_tys)`,
computed from the inputs. -/
def Constant.new_struct (_context : Context) (field_tys : List Ty) (fields : List Constant) : Constant :=
  .mk (.Struct field_tys) (.Struct fields)

/-- `Constant::get_undef`. -/
def Constant.get_undef (ty : Ty) : Constant :=
  .mk ty (.Undef)

/-- `Constant::get_array`: asserts that the supplied constant's type is an
array type, then allocates it into the arena.  The assertion (a
non-recoverable panic in the source) is modelled as `none`. -/
def Constant.get_array (context : Context) (value : Constant) : Option (Value × Context) :=
  if value.ty.is_array context then some (Value.new_constant context value) else none

/-- `Constant::get_struct`: asserts that the supplied constant's type is a
struct type, then allocates it into the arena.  The assertion (a
non-recoverable panic in the source) is modelled as `none`. -/
def Constant.get_struct (context : Context) (value : Constant) : Option (Value × Context) :=
  if value.ty.is_struct context then some (Value.new_constant context value) else none

/-- `Constant::extract_enum_tag_and_value`: the tag and value of an enum
constant when the type is enum-shaped and the payload is a two-element
struct, `none` otherwise. -/
def Constant.extract_enum_tag_and_value (c : Constant) (context : Context) :
    Option (Constant × Constant) :=
  if !(c.ty.is_enum context) then
    none
  else
    match c.value with
    | .Struct [tag, val] => some (tag, val)
    | _ => none

mutual

/-- `Constant::eq`: context-aware structural equality — type equality
first, then payload equality. -/
def Constant.eq (context : Context) : Constant → Constant → Bool
  | .mk ty1 v1, .mk ty2 v2 => Ty.eq context ty1 ty2 && valueEq context v1 v2

/-- The payload `match` inside `Constant::eq`: two `Undef`s are *not*
equal; scalar payloads compare by value; `Array`/`Struct` payloads compare
element-wise via `zip`/`all`; mismatched variants compare not-equal. -/
def valueEq (context : Context) : ConstantValue → ConstantValue → Bool
  | .Undef, _ => false
  | _, .Undef => false
  | .Unit, .Unit => true
  | .Bool l0, .Bool r0 => l0 == r0
  | .Uint l0, .Uint r0 => l0 == r0
  | .U256 l0, .U256 r0 => l0 == r0
  | .B256 l0, .B256 r0 => l0 == r0
  | .String l0, .String r0 => l0 == r0
  | .Array l0, .Array r0 => eqList context l0 r0
  | .Struct l0, .Struct r0 => eqList context l0 r0
  | _, _ => false

/-- The `l0.iter().zip(r0.iter()).all(..)` loop of `Constant::eq`:
element-wise comparison that stops at the shorter operand. -/
def eqList (context : Context) : List Constant → List Constant → Bool
  | [], _ => true
  | _ :: _, [] => true
  | a :: l, b :: r => Constant.eq context a b && eqList context l r

end

/-- The payload variant of a `ConstantValue`, as a discriminant number:
two values are of the same variant iff their discriminants agree. -/
def ConstantValue.variantIdx : ConstantValue → Nat
  | .Undef => 0
  | .Unit => 1
  | .Bool _ => 2
  | .Uint _ => 3
  | .U256 _ => 4
  | .B256 _ => 5
  | .String _ => 6
  | .Array _ => 7
  | .Struct _ => 8

mutual

/-- The spec's shape invariant on constants (spec §3, invariant set): a
struct/array constant's element count and each element's type match the
cardinality and element/field types recorded in the carried `Type`,
recursively.  Constants with a non-aggregate payload are unconstrained. -/
def wellFormed : Constant → Bool
  | .mk (.Array elmTy n) (.Array elems) =>
      (elems.length == n) && elemsWF elmTy elems
  | .mk _ (.Array _) => false
  | .mk (.Struct ftys) (.Struct fields) =>
      (fields.length == ftys.length) && fieldsWF ftys fields
  | .mk _ (.Struct _) => false
  | _ => true

/-- All array elements have the recorded element type and are themselves
well formed. -/
def elemsWF (elmTy : Ty) : List Constant → Bool
  | [] => true
  | e :: es => tyBeq e.ty elmTy && wellFormed e && elemsWF elmTy es

/-- Each struct field has the corresponding recorded field type and is
itself well formed. -/
def fieldsWF : List Ty → List Constant → Bool
  | _, [] => true
  | [], _ :: _ => false
  | t :: ts, f :: fs => tyBeq f.ty t && wellFormed f && fieldsWF ts fs

end

mutual

/-- Whether a constant is `Undef` or has an `Undef` nested anywhere inside
its aggregate payload. -/
def containsUndef : Constant → Bool
  | .mk _ .Undef => true
  | .mk _ (.Array elems) => anyUndef elems
  | .mk _ (.Struct fields) => anyUndef fields
  | _ => false

/-- Whether some constant of the list contains an `Undef`. -/
def anyUndef : List Constant → Bool
  | [] => false
  | e :: es => containsUndef e || anyUndef es

end

/-- A concrete empty context, used to instantiate universally quantified
statements on concrete inputs. -/
def ctx0 : Context :=
  ⟨[]⟩

/-! ### Helper lemmas -/

/-- Boolean structural type equality agrees with propositional equality. -/
theorem tyBeq_iff : ∀ (a b : Ty), tyBeq a b = true ↔ a = b := by
  have H : ∀ (n : Nat) (a b : Ty), sizeOf a ≤ n → (tyBeq a b = true ↔ a = b) := by
    intro n
    induction n with
    | zero =>
      intro a b h
      exact absurd h (by cases a <;> simp)
    | succ n ih =>
      intro a b h
      have hlist : ∀ (l1 l2 : List Ty), (∀ x ∈ l1, sizeOf x ≤ n) →
          (tyListBeq l1 l2 = true ↔ l1 = l2) := by
        intro l1
        induction l1 with
        | nil => intro l2 _; cases l2 <;> simp [tyListBeq]
        | cons x xs ihl =>
          intro l2 hx
          cases l2 with
          | nil => simp [tyListBeq]
          | cons y ys =>
            simp [tyListBeq, ih x y (hx x (List.mem_cons_self x xs)),
              ihl ys (fun z hz => hx z (List.mem_cons_of_mem x hz))]
      cases a with
      | Unit => cases b <;> simp [tyBeq]
      | Bool => cases b <;> simp [tyBeq]
      | Uint w => cases b <;> simp [tyBeq]
      | B256 => cases b <;> simp [tyBeq]
      | StringArray l => cases b <;> simp [tyBeq]
      | Array e k =>
        have he : sizeOf e ≤ n := by simp at h; omega
        cases b <;> simp [tyBeq, ih e _ he]
      | Struct f =>
        have hf : ∀ x ∈ f, sizeOf x ≤ n := by
          intro x hx
          have h1 : sizeOf x < sizeOf f := List.sizeOf_lt_of_mem hx
          simp at h
          omega
        cases b <;> simp [tyBeq, hlist f _ hf]
  intro a b
  exact H (sizeOf a) a b le_rfl

/-- Boolean structural type equality is reflexive. -/
theorem tyBeq_refl (a : Ty) : tyBeq a a = true :=
  (tyBeq_iff a a).2 rfl

/-- The element-wise loop of `Constant::eq` is exactly `zip` followed by
`all`: extra elements of the longer operand are never inspected. -/
theorem eqList_eq_zip_all (context : Context) :
    ∀ l r : List Constant,
      eqList context l r = (l.zip r).all fun p => Constant.eq context p.1 p.2 := by
  intro l
  induction l with
  | nil => intro r; simp [eqList]
  | cons a l ihl =>
    intro r
    cases r with
    | nil => simp [eqList]
    | cons b r => simp [eqList, ihl r]

/-- If the element-wise loop succeeds, every pair of elements at a common
index compares equal. -/
theorem eqList_pair (context : Context) :
    ∀ (l r : List Constant), eqList context l r = true →
      ∀ i (h1 : i < l.length) (h2 : i < r.length),
        Constant.eq context (l.get ⟨i, h1⟩) (r.get ⟨i, h2⟩) = true := by
  intro l
  induction l with
  | nil => intro r _ i h1; exact absurd h1 (by simp)
  | cons a l ihl =>
    intro r he i h1 h2
    cases r with
    | nil => exact absurd h2 (by simp)
    | cons b r =>
      rw [eqList, Bool.and_eq_true] at he
      cases i with
      | zero => exact he.1
      | succ i => exact ihl r he.2 i (Nat.lt_of_succ_lt_succ h1) (Nat.lt_of_succ_lt_succ h2)

/-- A list with `anyUndef` has an index whose element contains `Undef`. -/
theorem anyUndef_get :
    ∀ l : List Constant, anyUndef l = true →
      ∃ i, ∃ h : i < l.length, containsUndef (l.get ⟨i, h⟩) = true := by
  intro l
  induction l with
  | nil => intro h; exact absurd h (by simp [anyUndef])
  | cons e es ihl =>
    intro h
    rw [anyUndef, Bool.or_eq_true] at h
    rcases h with h | h
    · exact ⟨0, Nat.succ_pos _, h⟩
    · obtain ⟨i, hi, hc⟩ := ihl h
      exact ⟨i + 1, Nat.succ_lt_succ hi, hc⟩

/-- Every element of an `elemsWF` list is well formed. -/
theorem elemsWF_get (t : Ty) :
    ∀ l : List Constant, elemsWF t l = true →
      ∀ i (h : i < l.length), wellFormed (l.get ⟨i, h⟩) = true := by
  intro l
  induction l with
  | nil => intro _ i h; exact absurd h (by simp)
  | cons e es ihl =>
    intro hwf i h
    rw [elemsWF, Bool.and_eq_true, Bool.and_eq_true] at hwf
    cases i with
    | zero => exact hwf.1.2
    | succ i => exact ihl hwf.2 i (Nat.lt_of_succ_lt_succ h)

/-- Every element of a `fieldsWF` list is well formed. -/
theorem fieldsWF_get :
    ∀ (ts : List Ty) (l : List Constant), fieldsWF ts l = true →
      ∀ i (h : i < l.length), wellFormed (l.get ⟨i, h⟩) = true := by
  intro ts l
  induction l generalizing ts with
  | nil => intro _ i h; exact absurd h (by simp)
  | cons f fs ihl =>
    intro hwf i h
    cases ts with
    | nil => exact absurd hwf (by simp [fieldsWF])
    | cons t ts =>
      rw [fieldsWF, Bool.and_eq_true, Bool.and_eq_true] at hwf
      cases i with
      | zero => exact hwf.1.2
      | succ i => exact ihl ts hwf.2 i (Nat.lt_of_succ_lt_succ h)

/-- A well-formed constant with an `Array` payload carries an array type
matching the payload's length, with well-typed elements. -/
theorem wf_array_shape : ∀ (ty : Ty) (elems : List Constant),
    wellFormed (.mk ty (.Array elems)) = true →
    ∃ elmTy n, ty = Ty.Array elmTy n ∧ elems.length = n ∧ elemsWF elmTy elems = true := by
  intro ty elems h
  cases ty <;> simp only [wellFormed] at h
  case Array elmTy n =>
    rw [Bool.and_eq_true, beq_iff_eq] at h
    exact ⟨elmTy, n, rfl, h.1, h.2⟩
  all_goals exact Bool.noConfusion h

/-- A well-formed constant with a `Struct` payload carries a struct type
whose field-type list matches the payload's length, with well-typed
fields. -/
theorem wf_struct_shape : ∀ (ty : Ty) (fields : List Constant),
    wellFormed (.mk ty (.Struct fields)) = true →
    ∃ ftys, ty = Ty.Struct ftys ∧ fields.length = ftys.length ∧ fieldsWF ftys fields = true := by
  intro ty fields h
  cases ty <;> simp only [wellFormed] at h
  case Struct ftys =>
    rw [Bool.and_eq_true, beq_iff_eq] at h
    exact ⟨ftys, rfl, h.1, h.2⟩
  all_goals exact Bool.noConfusion h

/-- An `Undef` nested anywhere in either well-formed operand makes
`Constant::eq` return `false`. -/
theorem eq_false_of_undef (context : Context) :
    ∀ c1 c2 : Constant, wellFormed c1 = true → wellFormed c2 = true →
      (containsUndef c1 = true ∨ containsUndef c2 = true) →
      Constant.eq context c1 c2 = false := by
  have H : ∀ (N : Nat) (c1 c2 : Constant), sizeOf c1 + sizeOf c2 ≤ N →
      wellFormed c1 = true → wellFormed c2 = true →
      (containsUndef c1 = true ∨ containsUndef c2 = true) →
      Constant.eq context c1 c2 = false := by
    intro N
    induction N with
    | zero =>
      intro c1 c2 h
      exact absurd h (by obtain ⟨t1, w1⟩ := c1; obtain ⟨t2, w2⟩ := c2; simp)
    | succ N ih =>
      intro c1 c2 hN hw1 hw2 hU
      obtain ⟨ty1, v1⟩ := c1
      obtain ⟨ty2, v2⟩ := c2
      rw [Constant.eq]
      cases hty : tyBeq ty1 ty2 with
      | false => simp [Ty.eq, hty]
      | true =>
        have hty' : ty1 = ty2 := (tyBeq_iff ty1 ty2).1 hty
        subst hty'
        simp only [Ty.eq, hty, Bool.true_and]
        cases v1 with
        | Undef => exact valueEq.eq_1 context v2
        | Unit => cases v2 <;> simp_all [valueEq, containsUndef, anyUndef]
        | Bool bv => cases v2 <;> simp_all [valueEq, containsUndef, anyUndef]
        | Uint nv => cases v2 <;> simp_all [valueEq, containsUndef, anyUndef]
        | U256 nv => cases v2 <;> simp_all [valueEq, containsUndef, anyUndef]
        | B256 nv => cases v2 <;> simp_all [valueEq, containsUndef, anyUndef]
        | String sv => cases v2 <;> simp_all [valueEq, containsUndef, anyUndef]
        | Array elems1 =>
          cases v2 with
          | Undef => simp [valueEq]
          | Array elems2 =>
            simp only [valueEq]
            obtain ⟨elmTy, n, rfl, hlen1, hwf1⟩ := wf_array_shape ty1 elems1 hw1
            obtain ⟨elmTy2, n2, heq2, hlen2, hwf2⟩ := wf_array_shape _ elems2 hw2
            injection heq2 with h1 h2
            subst h1
            subst h2
            simp only [containsUndef] at hU
            by_contra hcon
            have heq : eqList context elems1 elems2 = true := by
              revert hcon
              cases eqList context elems1 elems2 <;> simp
            rcases hU with hU | hU
            · obtain ⟨i, hi, hc⟩ := anyUndef_get elems1 hU
              have hi2 : i < elems2.length := by omega
              have hpair := eqList_pair context elems1 elems2 heq i hi hi2
              have he1 := elemsWF_get elmTy elems1 hwf1 i hi
              have he2 := elemsWF_get elmTy elems2 hwf2 i hi2
              have hs1 := List.sizeOf_get elems1 ⟨i, hi⟩
              have hs2 := List.sizeOf_get elems2 ⟨i, hi2⟩
              have hsz : sizeOf (elems1.get ⟨i, hi⟩) + sizeOf (elems2.get ⟨i, hi2⟩) ≤ N := by
                simp at hN
                omega
              have hfls := ih _ _ hsz he1 he2 (Or.inl hc)
              rw [hfls] at hpair
              exact Bool.noConfusion hpair
            · obtain ⟨i, hi, hc⟩ := anyUndef_get elems2 hU
              have hi1 : i < elems1.length := by omega
              have hpair := eqList_pair context elems1 elems2 heq i hi1 hi
              have he1 := elemsWF_get elmTy elems1 hwf1 i hi1
              have he2 := elemsWF_get elmTy elems2 hwf2 i hi
              have hs1 := List.sizeOf_get elems1 ⟨i, hi1⟩
              have hs2 := List.sizeOf_get elems2 ⟨i, hi⟩
              have hsz : sizeOf (elems1.get ⟨i, hi1⟩) + sizeOf (elems2.get ⟨i, hi⟩) ≤ N := by
                simp at hN
                omega
              have hfls := ih _ _ hsz he1 he2 (Or.inr hc)
              rw [hfls] at hpair
              exact Bool.noConfusion hpair
          | Unit => simp [valueEq]
          | Bool bv => simp [valueEq]
          | Uint nv => simp [valueEq]
          | U256 nv => simp [valueEq]
          | B256 nv => simp [valueEq]
          | String sv => simp [valueEq]
          | Struct fields2 => simp [valueEq]
        | Struct fields1 =>
          cases v2 with
          | Undef => simp [valueEq]
          | Struct fields2 =>
            simp only [valueEq]
            obtain ⟨ftys, rfl, hlen1, hwf1⟩ := wf_struct_shape ty1 fields1 hw1
            obtain ⟨ftys2, heq2, hlen2, hwf2⟩ := wf_struct_shape _ fields2 hw2
            injection heq2 with h1
            subst h1
            simp only [containsUndef] at hU
            by_contra hcon
            have heq : eqList context fields1 fields2 = true := by
              revert hcon
              cases eqList context fields1 fields2 <;> simp
            rcases hU with hU | hU
            · obtain ⟨i, hi, hc⟩ := anyUndef_get fields1 hU
              have hi2 : i < fields2.length := by omega
              have hpair := eqList_pair context fields1 fields2 heq i hi hi2
              have he1 := fieldsWF_get ftys fields1 hwf1 i hi
              have he2 := fieldsWF_get ftys fields2 hwf2 i hi2
              have hs1 := List.sizeOf_get fields1 ⟨i, hi⟩
              have hs2 := List.sizeOf_get fields2 ⟨i, hi2⟩
              have hsz : sizeOf (fields1.get ⟨i, hi⟩) + sizeOf (fields2.get ⟨i, hi2⟩) ≤ N := by
                simp at hN
                omega
              have hfls := ih _ _ hsz he1 he2 (Or.inl hc)
              rw [hfls] at hpair
              exact Bool.noConfusion hpair
            · obtain ⟨i, hi, hc⟩ := anyUndef_get fields2 hU
              have hi1 : i < fields1.length := by omega
              have hpair := eqList_pair context fields1 fields2 heq i hi1 hi
              have he1 := fieldsWF_get ftys fields1 hwf1 i hi1
              have he2 := fieldsWF_get ftys fields2 hwf2 i hi
              have hs1 := List.sizeOf_get fields1 ⟨i, hi1⟩
              have hs2 := List.sizeOf_get fields2 ⟨i, hi⟩
              have hsz : sizeOf (fields1.get ⟨i, hi1⟩) + sizeOf (fields2.get ⟨i, hi⟩) ≤ N := by
                simp at hN
                omega
              have hfls := ih _ _ hsz he1 he2 (Or.inr hc)
              rw [hfls] at hpair
              exact Bool.noConfusion hpair
          | Unit => simp [valueEq]
          | Bool bv => simp [valueEq]
          | Uint nv => simp [valueEq]
          | U256 nv => simp [valueEq]
          | B256 nv => simp [valueEq]
          | String sv => simp [valueEq]
          | Array elems2 => simp [valueEq]
  intro c1 c2
  exact H (sizeOf c1 + sizeOf c2) c1 c2 le_rfl

/-- Either operand's `Undef` payload makes `Constant::eq` return false. -/
theorem undef_eq_false (context : Context) (c1 c2 : Constant)
    (h : c1.value = ConstantValue.Undef ∨ c2.value = ConstantValue.Undef) :
    Constant.eq context c1 c2 = false := by
  obtain ⟨t1, v1⟩ := c1
  obtain ⟨t2, v2⟩ := c2
  simp only [Constant.value] at h
  rw [Constant.eq.eq_1]
  rcases h with h | h
  · subst h
    rw [valueEq.eq_1, Bool.and_false]
  · subst h
    cases v1 <;> simp [valueEq.eq_1, valueEq.eq_2]

/-- Big-endian extraction of `bs.length` bytes inverts the big-endian
accumulation fold, for any fold seed, when every byte is in range. -/
theorem beBytes_foldl :
    ∀ (bs : List Nat) (a : Nat), (∀ b ∈ bs, b < 256) →
      beBytes bs.length (bs.foldl (fun acc b => acc * 256 + b) a) = bs := by
  intro bs
  induction bs using List.reverseRecOn with
  | nil => intro a _; rfl
  | append_singleton bs b ih =>
    intro a hlt
    have hb : b < 256 := hlt b (by simp)
    rw [List.foldl_concat, List.length_append, List.length_cons, List.length_nil, beBytes]
    have h1 : (bs.foldl (fun acc b => acc * 256 + b) a * 256 + b) % 256 = b := by
      rw [Nat.mul_comm, Nat.mul_add_mod]
      exact Nat.mod_eq_of_lt hb
    have h2 : (bs.foldl (fun acc b => acc * 256 + b) a * 256 + b) / 256 =
        bs.foldl (fun acc b => acc * 256 + b) a := by
      rw [Nat.mul_comm, Nat.mul_add_div (by norm_num), Nat.div_eq_of_lt hb, Nat.add_zero]
    rw [h1, h2, ih a fun x hx => hlt x (by simp [hx])]

/-- If the payload variants of two values differ, the payload comparison
inside `Constant::eq` returns false (contrapositive form). -/
theorem valueEq_true_variantIdx (context : Context) :
    ∀ v1 v2 : ConstantValue, valueEq context v1 v2 = true →
      v1.variantIdx = v2.variantIdx := by
  intro v1 v2
  cases v1 <;> cases v2 <;> intro h <;> first
    | rfl
    | (exfalso; simp [valueEq] at h)

/-! ### Claim theorems -/

/-- C1: for every type T, a constant built by `Constant::get_undef(T)`
compared via the context-aware `Constant::eq` returns not-equal against
itself and against every other constant; in general, for every pair of
constants, if either side's value is `ConstantValue::Undef`, `Constant::eq`
returns false. -/
theorem C1_undef_never_equal (context : Context) (c1 c2 : Constant) (ty : Ty) :
    ((c1.value = ConstantValue.Undef ∨ c2.value = ConstantValue.Undef) →
      Constant.eq context c1 c2 = false) ∧
    Constant.eq context (Constant.get_undef ty) (Constant.get_undef ty) = false ∧
    Constant.eq context (Constant.get_undef ty) c1 = false ∧
    Constant.eq context c1 (Constant.get_undef ty) = false :=
  ⟨fun h => undef_eq_false context c1 c2 h,
   undef_eq_false context _ _ (Or.inl rfl),
   undef_eq_false context _ c1 (Or.inl rfl),
   undef_eq_false context c1 _ (Or.inr rfl)⟩

/-- C1 witness: `get_undef(Bool)` is not equal to itself nor to a concrete
`Bool` constant, instantiated concretely. -/
theorem C1_undef_never_equal_witness :
    Constant.eq ctx0 (Constant.get_undef Ty.Bool) (Constant.new_bool ctx0 true) = false :=
  (C1_undef_never_equal ctx0 (Constant.get_undef Ty.Bool) (Constant.new_bool ctx0 true)
    Ty.Bool).1 (Or.inl rfl)

/-- C2: `Constant::eq` on struct constants is element-wise and
order-sensitive, recursing into `Constant::eq` itself: equal field types
with element-wise equal field values from independent constructor calls
compare equal; one unequal element at any index makes the pair unequal;
and an `Undef` nested anywhere in either (well-formed) operand makes the
whole comparison unequal. -/
theorem C2_struct_elementwise (context : Context) :
    (∀ (field_tys : List Ty) (f1 f2 : List Constant),
      f1.length = f2.length → eqList context f1 f2 = true →
      Constant.eq context (Constant.new_struct context field_tys f1)
        (Constant.new_struct context field_tys f2) = true) ∧
    (∀ (field_tys : List Ty) (f1 f2 : List Constant) (i : Nat)
      (h1 : i < f1.length) (h2 : i < f2.length),
      Constant.eq context (f1.get ⟨i, h1⟩) (f2.get ⟨i, h2⟩) = false →
      Constant.eq context (Constant.new_struct context field_tys f1)
        (Constant.new_struct context field_tys f2) = false) ∧
    (∀ c1 c2 : Constant, wellFormed c1 = true → wellFormed c2 = true →
      (containsUndef c1 = true ∨ containsUndef c2 = true) →
      Constant.eq context c1 c2 = false) := by
  refine ⟨?_, ?_, eq_false_of_undef context⟩
  · intro field_tys f1 f2 _ he
    rw [Constant.new_struct, Constant.new_struct, Constant.eq.eq_1, valueEq.eq_10, he,
      Ty.eq, tyBeq_refl, Bool.true_and]
  · intro field_tys f1 f2 i h1 h2 hne
    rw [Constant.new_struct, Constant.new_struct, Constant.eq.eq_1, valueEq.eq_10]
    cases he : eqList context f1 f2 with
    | false => rw [Bool.and_false]
    | true =>
      have := eqList_pair context f1 f2 he i h1 h2
      rw [hne] at this
      exact Bool.noConfusion this

/-- C2 witness: two independently constructed `{Uint(64)=42, Bool=true}`
structs compare equal; flipping the boolean makes them unequal; a nested
`Undef` field makes them unequal. -/
theorem C2_struct_elementwise_witness :
    Constant.eq ctx0
      (Constant.new_struct ctx0 [Ty.Uint 64, Ty.Bool]
        [Constant.new_uint ctx0 64 42, Constant.new_bool ctx0 true])
      (Constant.new_struct ctx0 [Ty.Uint 64, Ty.Bool]
        [Constant.new_uint ctx0 64 42, Constant.new_bool ctx0 true]) = true ∧
    Constant.eq ctx0
      (Constant.new_struct ctx0 [Ty.Uint 64, Ty.Bool]
        [Constant.new_uint ctx0 64 42, Constant.new_bool ctx0 true])
      (Constant.new_struct ctx0 [Ty.Uint 64, Ty.Bool]
        [Constant.new_uint ctx0 64 42, Constant.new_bool ctx0 false]) = false ∧
    Constant.eq ctx0
      (Constant.new_struct ctx0 [Ty.Uint 64, Ty.Bool]
        [Constant.new_uint ctx0 64 42, Constant.get_undef Ty.Bool])
      (Constant.new_struct ctx0 [Ty.Uint 64, Ty.Bool]
        [Constant.new_uint ctx0 64 42, Constant.new_bool ctx0 true]) = false :=
  ⟨(C2_struct_elementwise ctx0).1 [Ty.Uint 64, Ty.Bool]
      [Constant.new_uint ctx0 64 42, Constant.new_bool ctx0 true]
      [Constant.new_uint ctx0 64 42, Constant.new_bool ctx0 true] rfl (by decide),
   (C2_struct_elementwise ctx0).2.1 [Ty.Uint 64, Ty.Bool]
      [Constant.new_uint ctx0 64 42, Constant.new_bool ctx0 true]
      [Constant.new_uint ctx0 64 42, Constant.new_bool ctx0 false]
      1 (by decide) (by decide) (by decide),
   (C2_struct_elementwise ctx0).2.2
      (Constant.new_struct ctx0 [Ty.Uint 64, Ty.Bool]
        [Constant.new_uint ctx0 64 42, Constant.get_undef Ty.Bool])
      (Constant.new_struct ctx0 [Ty.Uint 64, Ty.Bool]
        [Constant.new_uint ctx0 64 42, Constant.new_bool ctx0 true])
      (by decide) (by decide) (Or.inl (by decide))⟩

/-- C3: for every 64-bit value n, `Constant::new_uint(ctx, 256, n)` and
`Constant::new_uint256(ctx, U256::from(n))` have equal types and compare
equal under `Constant::eq`. -/
theorem C3_uint256_equivalence (context : Context) (n : Nat) (h : n < 2 ^ 64) :
    (Constant.new_uint context 256 n).ty = (Constant.new_uint256 context n).ty ∧
    Constant.eq context (Constant.new_uint context 256 n)
      (Constant.new_uint256 context n) = true := by
  refine ⟨rfl, ?_⟩
  rw [Constant.new_uint, Constant.new_uint256]
  rw [Constant.eq.eq_1, valueEq.eq_6, Ty.eq]
  simp [tyBeq]

/-- C3 witness: instantiated at n = 42. -/
theorem C3_uint256_equivalence_witness :
    (Constant.new_uint ctx0 256 42).ty = (Constant.new_uint256 ctx0 42).ty ∧
    Constant.eq ctx0 (Constant.new_uint ctx0 256 42)
      (Constant.new_uint256 ctx0 42) = true :=
  C3_uint256_equivalence ctx0 42 (by norm_num)

/-- C4: `Constant::eq` returns true only if the two types compare equal
(type equality is checked first), and any pair whose payload variants
differ compares not-equal. -/
theorem C4_type_and_variant (context : Context) (c1 c2 : Constant) :
    (Constant.eq context c1 c2 = true → Ty.eq context c1.ty c2.ty = true) ∧
    (c1.value.variantIdx ≠ c2.value.variantIdx →
      Constant.eq context c1 c2 = false) := by
  obtain ⟨t1, v1⟩ := c1
  obtain ⟨t2, v2⟩ := c2
  constructor
  · intro h
    rw [Constant.eq.eq_1, Bool.and_eq_true] at h
    exact h.1
  · intro h
    rw [Constant.eq.eq_1]
    cases hv : valueEq context v1 v2 with
    | false => rw [Bool.and_false]
    | true =>
      exact absurd (valueEq_true_variantIdx context v1 v2 hv) h

/-- C4 witness: a `Bool` constant equal to itself has equal types, and a
`Bool`/`Unit` pair (mismatched variants) compares not-equal. -/
theorem C4_type_and_variant_witness :
    Ty.eq ctx0 (Constant.new_bool ctx0 true).ty (Constant.new_bool ctx0 true).ty = true ∧
    Constant.eq ctx0 (Constant.new_bool ctx0 true) (Constant.new_unit ctx0) = false :=
  ⟨(C4_type_and_variant ctx0 (Constant.new_bool ctx0 true)
      (Constant.new_bool ctx0 true)).1 (by decide),
   (C4_type_and_variant ctx0 (Constant.new_bool ctx0 true)
      (Constant.new_unit ctx0)).2 (by decide)⟩

/-- C5: `extract_enum_tag_and_value` returns `Some((tag, payload))` exactly
when the constant's type satisfies `is_enum` and its value is a struct with
exactly two elements, tag and payload being the first and second element;
otherwise it returns `None`. -/
theorem C5_extract_enum (context : Context) (c : Constant) (tag val : Constant) :
    c.extract_enum_tag_and_value context = some (tag, val) ↔
      (Ty.is_enum context c.ty = true ∧
        c.value = ConstantValue.Struct [tag, val]) := by
  obtain ⟨ty, v⟩ := c
  simp only [Constant.extract_enum_tag_and_value, Constant.ty, Constant.value]
  cases he : Ty.is_enum context ty with
  | false => simp
  | true =>
    simp only [Bool.not_true, Bool.false_eq_true, if_false, true_and]
    cases v with
    | Struct l =>
      match l with
      | [] => simp
      | [a] => simp
      | [a, b] => simp [eq_comm, and_comm]
      | a :: b :: c :: rest => simp
    | Undef => simp
    | Unit => simp
    | Bool bv => simp
    | Uint nv => simp
    | U256 nv => simp
    | B256 nv => simp
    | String sv => simp
    | Array l => simp

/-- C6 counterexample: the constructors do not prevent type/value
mismatches — `new_array` with an element whose type differs from the
supplied element type, and `new_struct` with a field count differing from
the field-type count, both violate the shape invariant. -/
theorem C6_counterexample :
    wellFormed (Constant.new_array ctx0 Ty.Unit [Constant.new_bool ctx0 true]) = false ∧
    wellFormed (Constant.new_struct ctx0 [Ty.Bool] []) = false := by
  constructor
  · rw [Constant.new_array, Constant.new_bool]
    simp [wellFormed, elemsWF, Constant.ty, tyBeq]
  · rw [Constant.new_struct]
    simp [wellFormed]

/-- C6 (amended): the carried `Type` of `new_array`/`new_struct` is
computed from the constructor inputs (for `new_array` the recorded
cardinality always equals the element count), and the shape invariant
holds whenever the supplied element/field types actually match the
elements — but the constructors themselves perform no check, so a caller
supplying mismatched inputs obtains an ill-formed constant. -/
theorem C6_amended_shape (context : Context) (elm_ty : Ty) (elems : List Constant)
    (field_tys : List Ty) (fields : List Constant) :
    ((Constant.new_array context elm_ty elems).ty = Ty.Array elm_ty elems.length) ∧
    ((Constant.new_struct context field_tys fields).ty = Ty.Struct field_tys) ∧
    (elemsWF elm_ty elems = true →
      wellFormed (Constant.new_array context elm_ty elems) = true) ∧
    (fields.length = field_tys.length → fieldsWF field_tys fields = true →
      wellFormed (Constant.new_struct context field_tys fields) = true) := by
  refine ⟨rfl, rfl, ?_, ?_⟩
  · intro h
    rw [Constant.new_array]
    simp [wellFormed, h]
  · intro hlen h
    rw [Constant.new_struct]
    simp [wellFormed, hlen, h]

/-- C6 witness: a `Bool` array of one `Bool` element and a one-field
struct with a matching field type are well formed. -/
theorem C6_amended_shape_witness :
    ((Constant.new_array ctx0 Ty.Bool [Constant.new_bool ctx0 true]).ty =
      Ty.Array Ty.Bool 1) ∧
    wellFormed (Constant.new_array ctx0 Ty.Bool [Constant.new_bool ctx0 true]) = true ∧
    wellFormed (Constant.new_struct ctx0 [Ty.Bool] [Constant.new_bool ctx0 true]) = true :=
  ⟨(C6_amended_shape ctx0 Ty.Bool [Constant.new_bool ctx0 true] [] []).1,
   (C6_amended_shape ctx0 Ty.Bool [Constant.new_bool ctx0 true] [] []).2.2.1 (by decide),
   (C6_amended_shape ctx0 Ty.Bool [] [Ty.Bool] [Constant.new_bool ctx0 true]).2.2.2
     rfl (by decide)⟩

/-- C7: `Value::new_constant` does not deduplicate — two calls with
constants that compare equal under `Constant::eq` yield two handles that
are not identical, yet the payload constants retrieved through either
handle compare equal under `Constant::eq`. -/
theorem C7_no_dedup (context : Context) (c1 c2 : Constant)
    (h : Constant.eq context c1 c2 = true) :
    (Value.new_constant context c1).1 ≠
      (Value.new_constant (Value.new_constant context c1).2 c2).1 ∧
    ∃ p1 p2,
      Context.get_constant (Value.new_constant (Value.new_constant context c1).2 c2).2
          (Value.new_constant context c1).1 = some p1 ∧
      Context.get_constant (Value.new_constant (Value.new_constant context c1).2 c2).2
          (Value.new_constant (Value.new_constant context c1).2 c2).1 = some p2 ∧
      Constant.eq context p1 p2 = true := by
  refine ⟨?_, c1, c2, ?_, ?_, h⟩
  · simp [Value.new_constant, Value.mk.injEq]
  · simp only [Value.new_constant, Context.get_constant]
    rw [List.getElem?_append]
    simp [List.getElem?_concat_length]
  · simp only [Value.new_constant, Context.get_constant]
    exact List.getElem?_concat_length _ c2

/-- C7 witness: two allocations of equal `Bool` constants into the empty
context give distinct handles with equal payloads. -/
theorem C7_no_dedup_witness :
    (Value.new_constant ctx0 (Constant.new_bool ctx0 true)).1 ≠
      (Value.new_constant (Value.new_constant ctx0 (Constant.new_bool ctx0 true)).2
        (Constant.new_bool ctx0 true)).1 ∧
    ∃ p1 p2,
      Context.get_constant
          (Value.new_constant (Value.new_constant ctx0 (Constant.new_bool ctx0 true)).2
            (Constant.new_bool ctx0 true)).2
          (Value.new_constant ctx0 (Constant.new_bool ctx0 true)).1 = some p1 ∧
      Context.get_constant
          (Value.new_constant (Value.new_constant ctx0 (Constant.new_bool ctx0 true)).2
            (Constant.new_bool ctx0 true)).2
          (Value.new_constant (Value.new_constant ctx0 (Constant.new_bool ctx0 true)).2
            (Constant.new_bool ctx0 true)).1 = some p2 ∧
      Constant.eq ctx0 p1 p2 = true :=
  C7_no_dedup ctx0 (Constant.new_bool ctx0 true) (Constant.new_bool ctx0 true) (by decide)

/-- C8: `Constant::new_b256` interprets its 32 input bytes as big-endian
and stores them in the 256-bit digest representation, and the byte order
round-trips exactly: converting the stored payload back to big-endian
bytes reproduces the original 32 bytes in order. -/
theorem C8_b256_roundtrip (context : Context) (bytes : List Nat)
    (hlen : bytes.length = 32) (hlt : ∀ b ∈ bytes, b < 256) :
    (Constant.new_b256 context bytes).value =
      ConstantValue.B256 (U256.from_be_bytes bytes) ∧
    U256.to_be_bytes (U256.from_be_bytes bytes) = bytes := by
  refine ⟨rfl, ?_⟩
  rw [U256.to_be_bytes, U256.from_be_bytes, ← hlen]
  exact beBytes_foldl bytes 0 hlt

/-- C8 witness: the bytes `0x00, 0x01, ..., 0x1f` round-trip exactly. -/
theorem C8_b256_roundtrip_witness :
    (Constant.new_b256 ctx0
        [0, 1, 2, 3, 4, 5, 6, 7, 8, 9, 10, 11, 12, 13, 14, 15, 16, 17, 18, 19,
          20, 21, 22, 23, 24, 25, 26, 27, 28, 29, 30, 31]).value =
      ConstantValue.B256 (U256.from_be_bytes
        [0, 1, 2, 3, 4, 5, 6, 7, 8, 9, 10, 11, 12, 13, 14, 15, 16, 17, 18, 19,
          20, 21, 22, 23, 24, 25, 26, 27, 28, 29, 30, 31]) ∧
    U256.to_be_bytes (U256.from_be_bytes
        [0, 1, 2, 3, 4, 5, 6, 7, 8, 9, 10, 11, 12, 13, 14, 15, 16, 17, 18, 19,
          20, 21, 22, 23, 24, 25, 26, 27, 28, 29, 30, 31]) =
      [0, 1, 2, 3, 4, 5, 6, 7, 8, 9, 10, 11, 12, 13, 14, 15, 16, 17, 18, 19,
        20, 21, 22, 23, 24, 25, 26, 27, 28, 29, 30, 31] :=
  C8_b256_roundtrip ctx0 _ (by decide) (by decide)

/-- C9: `get_array`/`get_struct` assert that the supplied constant's type
is an array respectively struct type; under the precondition the assertion
never fires and the constant is allocated into the arena unchanged, and a
violating call triggers the assertion (modelled as `none`). -/
theorem C9_get_aggregate_assert (context : Context) (value : Constant) :
    (Ty.is_array context value.ty = true →
      Constant.get_array context value = some (Value.new_constant context value)) ∧
    (Ty.is_array context value.ty = false →
      Constant.get_array context value = none) ∧
    (Ty.is_struct context value.ty = true →
      Constant.get_struct context value = some (Value.new_constant context value)) ∧
    (Ty.is_struct context value.ty = false →
      Constant.get_struct context value = none) ∧
    (Value.new_constant context value).2.values = context.values ++ [value] := by
  refine ⟨?_, ?_, ?_, ?_, rfl⟩ <;> intro h <;>
    simp [Constant.get_array, Constant.get_struct, h]

/-- C9 witness: an array-typed constant is accepted by `get_array`, and a
`Bool` constant is rejected by both entry points. -/
theorem C9_get_aggregate_assert_witness :
    Constant.get_array ctx0 (Constant.new_array ctx0 Ty.Bool []) =
      some (Value.new_constant ctx0 (Constant.new_array ctx0 Ty.Bool [])) ∧
    Constant.get_array ctx0 (Constant.new_bool ctx0 true) = none ∧
    Constant.get_struct ctx0 (Constant.new_struct ctx0 [] []) =
      some (Value.new_constant ctx0 (Constant.new_struct ctx0 [] [])) ∧
    Constant.get_struct ctx0 (Constant.new_bool ctx0 true) = none :=
  ⟨(C9_get_aggregate_assert ctx0 (Constant.new_array ctx0 Ty.Bool [])).1 (by decide),
   (C9_get_aggregate_assert ctx0 (Constant.new_bool ctx0 true)).2.1 (by decide),
   (C9_get_aggregate_assert ctx0 (Constant.new_struct ctx0 [] [])).2.2.1 (by decide),
   (C9_get_aggregate_assert ctx0 (Constant.new_bool ctx0 true)).2.2.2.1 (by decide)⟩

/-- C10: `Constant::eq` never checks that `Array`/`Struct` payload lengths
match — for two constants with equal types but payload vectors of
different lengths, `eq` returns true whenever the element pairs up to the
shorter length all compare equal; the extra elements are ignored. -/
theorem C10_extra_elements_ignored (context : Context) (ty : Ty)
    (l r : List Constant) (hne : l.length ≠ r.length)
    (h : ((l.zip r).all fun p => Constant.eq context p.1 p.2) = true) :
    Constant.eq context (Constant.mk ty (ConstantValue.Struct l))
        (Constant.mk ty (ConstantValue.Struct r)) = true ∧
    Constant.eq context (Constant.mk ty (ConstantValue.Array l))
        (Constant.mk ty (ConstantValue.Array r)) = true := by
  have he : eqList context l r = true := by
    rw [eqList_eq_zip_all]
    exact h
  constructor
  · rw [Constant.eq.eq_1, valueEq.eq_10, he, Ty.eq, tyBeq_refl, Bool.true_and]
  · rw [Constant.eq.eq_1, valueEq.eq_9, he, Ty.eq, tyBeq_refl, Bool.true_and]

/-- C10 witness: a one-element struct payload compares equal to a
two-element struct payload of the same carried type when the first
elements agree — the extra element (even of a different variant) is
ignored. -/
theorem C10_extra_elements_ignored_witness :
    Constant.eq ctx0
        (Constant.mk (Ty.Struct [Ty.Bool])
          (ConstantValue.Struct [Constant.new_bool ctx0 true]))
        (Constant.mk (Ty.Struct [Ty.Bool])
          (ConstantValue.Struct
            [Constant.new_bool ctx0 true, Constant.new_uint ctx0 64 7])) = true ∧
    Constant.eq ctx0
        (Constant.mk (Ty.Struct [Ty.Bool])
          (ConstantValue.Array [Constant.new_bool ctx0 true]))
        (Constant.mk (Ty.Struct [Ty.Bool])
          (ConstantValue.Array
            [Constant.new_bool ctx0 true, Constant.new_uint ctx0 64 7])) = true :=
  C10_extra_elements_ignored ctx0 (Ty.Struct [Ty.Bool])
    [Constant.new_bool ctx0 true]
    [Constant.new_bool ctx0 true, Constant.new_uint ctx0 64 7]
    (by decide) (by decide)

end SwayIR
